import Mathlib

/-!
Verification of the drop-detection core of `dropskimmer`
(`src/utils/dropDetection.ts`).

Numbers are modelled as exact rationals (`ℚ`); the logistic confidence
squash uses `Real.exp`, so the confidence field of a result lives in `ℝ`.
Timestamps are integers (milliseconds).  The IndexedDB cache is modelled
as a key-value map `String → Option DropAnalysis`, and the Spotify
analysis fetch as an `Except`-valued input: `Except.error` represents a
failing (or malformed, i.e. unparseable) provider response.  The
`try`/`catch` of `detectDrop` is modelled by running the body in
`Except` (`tryDetect`) and mapping an error to the error fallback.
-/

namespace DropSkimmer

/-- `SpotifyTrack` (the fields the detector reads). -/
structure SpotifyTrack where
  id : String
  name : String
  duration_ms : ℚ
  deriving DecidableEq

/-- An entry of `AudioAnalysis.sections` (the fields the detector reads). -/
structure AnalysisSection where
  start : ℚ
  loudness : ℚ
  tempo_confidence : ℚ
  deriving DecidableEq

/-- An entry of `AudioAnalysis.segments` (the fields the detector reads;
`timbre` is present in the provider response but never read by the scanner). -/
structure AnalysisSegment where
  start : ℚ
  loudness_max : ℚ
  timbre : List ℚ
  deriving DecidableEq

/-- An entry of `AudioAnalysis.bars`. -/
structure AnalysisBar where
  start : ℚ
  confidence : ℚ
  deriving DecidableEq

/-- The provider's analysis payload. -/
structure AudioAnalysis where
  sections : List AnalysisSection
  segments : List AnalysisSegment
  bars : List AnalysisBar
  deriving DecidableEq

/-- `DropAnalysis`: the published result record. -/
structure DropAnalysis where
  trackId : String
  dropStart : ℤ
  confidence : ℝ
  method : String
  previewLength : ℚ
  analysisTimestamp : ℤ

/-- `interface DropCandidate { start: number; score: number }`. -/
structure DropCandidate where
  start : ℚ
  score : ℚ
  deriving DecidableEq

/-- `median(nums)`: 0 on the empty list, else the middle of the sorted list
(mean of the two middles for even length). -/
def median (nums : List ℚ) : ℚ :=
  if nums.length = 0 then 0
  else
    let sorted := nums.insertionSort (· ≤ ·)
    let mid := sorted.length / 2
    if sorted.length % 2 = 1 then sorted.getD mid 0
    else (sorted.getD (mid - 1) 0 + sorted.getD mid 0) / 2

/-- `squash(x) = 1 / (1 + e^(-0.6*(x-5)))`. -/
noncomputable def squash (x : ℝ) : ℝ := 1 / (1 + Real.exp (-0.6 * (x - 5)))

/-- The body of the `for` loops of both scanners: keep the running best,
replacing it only when the current qualifying item scores strictly higher
(`if (!best || score > best.score) best = {start, score}`). -/
def scanStep {α : Type} (q : α → Bool) (mk : α → DropCandidate)
    (best : Option DropCandidate) (a : α) : Option DropCandidate :=
  if q a then
    match best with
    | none => some (mk a)
    | some b => if (mk a).score > b.score then some (mk a) else some b
  else best

/-- Run a scanner loop over a list of items. -/
def scanBest {α : Type} (q : α → Bool) (mk : α → DropCandidate)
    (L : List α) : Option DropCandidate :=
  L.foldl (scanStep q mk) none

/-- The two `continue` filters of `findDropInSections`:
skip when `cur.start < s || cur.start > e`, then when `cur.loudness < thresh`. -/
def sectionQualifies (s e thresh : ℚ) (cur : AnalysisSection) : Bool :=
  !(decide (cur.start < s) || decide (cur.start > e)) && !(decide (cur.loudness < thresh))

/-- The score of a section against its immediate predecessor:
`(loudness+60)/10 + tempo_confidence*4`, `+4` on an energy jump of more than
2 dB over the previous section, `+2` when the position ratio is strictly
between 0.2 and 0.8. -/
def sectionScore (s span : ℚ) (prev cur : AnalysisSection) : ℚ :=
  let base := (cur.loudness + 60) / 10 + cur.tempo_confidence * 4
  let withJump := if cur.loudness > prev.loudness + 2 then base + 4 else base
  let posRatio := (cur.start - s) / span
  if posRatio > 0.2 ∧ posRatio < 0.8 then withJump + 2 else withJump

/-- `findDropInSections`: loop `for (i = 1; i < sections.length; i++)` with
`prev = sections[i-1]`, modelled as a fold over adjacent pairs. -/
def findDropInSections (sections : List AnalysisSection)
    (startMs endMs thresh : ℚ) : Option DropCandidate :=
  let s := startMs / 1000
  let e := endMs / 1000
  let span := e - s
  scanBest (fun pc => sectionQualifies s e thresh pc.2)
    (fun pc => { start := pc.2.start, score := sectionScore s span pc.1 pc.2 })
    (sections.zip (sections.drop 1))

/-- The two `continue` filters of `findDropInSegments`. -/
def segmentQualifies (s e thresh : ℚ) (cur : AnalysisSegment) : Bool :=
  !(decide (cur.start < s) || decide (cur.start > e)) && !(decide (cur.loudness_max < thresh))

/-- The score of a segment against its immediate predecessor:
`max(0, loudJump)*3 + (loudness_max+60)/15`. -/
def segmentScore (prev cur : AnalysisSegment) : ℚ :=
  let loudJump := cur.loudness_max - prev.loudness_max
  (max 0 loudJump) * 3 + (cur.loudness_max + 60) / 15

/-- `findDropInSegments`: loop from index 1 with `prev = segments[i-1]`. -/
def findDropInSegments (segments : List AnalysisSegment)
    (startMs endMs thresh : ℚ) : Option DropCandidate :=
  let s := startMs / 1000
  let e := endMs / 1000
  scanBest (fun pc => segmentQualifies s e thresh pc.2)
    (fun pc => { start := pc.2.start, score := segmentScore pc.1 pc.2 })
    (segments.zip (segments.drop 1))

/-- `loudestSegmentInRange`: filter the segments whose start lies in
`[s, e]` and reduce to the one with the largest `loudness_max`
(`reduce((a, b) => b.loudness_max > a.loudness_max ? b : a)`). -/
def loudestSegmentInRange (segments : List AnalysisSegment)
    (startMs endMs : ℚ) : Option DropCandidate :=
  let s := startMs / 1000
  let e := endMs / 1000
  let inRange := segments.filter (fun seg => decide (seg.start ≥ s) && decide (seg.start ≤ e))
  match inRange with
  | [] => none
  | h :: t =>
    let loudest := t.foldl (fun a b => if b.loudness_max > a.loudness_max then b else a) h
    some { start := loudest.start, score := 0.6 }

/-- The body of the loop of `snapToDownbeat`, on state
`(closest, minDist)`; `minDist = none` models the initial `Infinity`. -/
def snapStep (targetSec : ℚ) (st : ℚ × Option ℚ) (bar : AnalysisBar) : ℚ × Option ℚ :=
  if bar.confidence < 0.5 then st
  else
    let dist := |bar.start - targetSec|
    match st.2 with
    | none => (bar.start, some dist)
    | some m => if dist < m then (bar.start, some dist) else st

/-- `snapToDownbeat(targetSec, bars)`: the start of the confident
(`confidence ≥ 0.5`) bar closest to the target, or the target itself. -/
def snapToDownbeat (targetSec : ℚ) (bars : List AnalysisBar) : ℚ :=
  (bars.foldl (snapStep targetSec) (targetSec, none)).1

/-- `buildResult`: snap the candidate to the nearest confident down-beat,
convert to ms, and attach `confidenceOverride ?? squash(score)`. -/
noncomputable def buildResult (track : SpotifyTrack) (analysis : AudioAnalysis)
    (candidate : DropCandidate) (method : String) (previewLength : ℚ) (now : ℤ)
    (confidenceOverride : Option ℝ) : DropAnalysis :=
  let snapped := snapToDownbeat candidate.start analysis.bars
  { trackId := track.id
    dropStart := ⌊snapped * 1000⌋
    confidence := confidenceOverride.getD (squash (candidate.score : ℝ))
    method := method
    previewLength := previewLength
    analysisTimestamp := now }

/-- `fallbackDrop`: 30 % of the track duration with the given confidence
and method tag. -/
def fallbackDrop (track : SpotifyTrack) (previewLength : ℚ) (confidence : ℝ)
    (method : String) (now : ℤ) : DropAnalysis :=
  { trackId := track.id
    dropStart := ⌊track.duration_ms * 0.3⌋
    confidence := confidence
    method := method
    previewLength := previewLength
    analysisTimestamp := now }

/-- `analyzeForDrop`: search window, dynamic threshold, then the strict
fallback chain sections → segments → loudest segment → hard 30 % fallback. -/
noncomputable def analyzeForDrop (track : SpotifyTrack) (analysis : AudioAnalysis)
    (loudnessOffset previewLength : ℚ) (now : ℤ) : DropAnalysis :=
  let durMs := track.duration_ms
  let searchStartMs := durMs * 0.15
  let searchEndMs := durMs * (if durMs < 240000 then 0.7 else 0.8)
  let medianLoud := median (analysis.segments.map (fun sg => sg.loudness_max))
  let dynThreshold := medianLoud + loudnessOffset
  match findDropInSections analysis.sections searchStartMs searchEndMs dynThreshold with
  | some sectionHit => buildResult track analysis sectionHit "sections" previewLength now none
  | none =>
  match findDropInSegments analysis.segments searchStartMs searchEndMs dynThreshold with
  | some segmentHit => buildResult track analysis segmentHit "segments" previewLength now none
  | none =>
  match loudestSegmentInRange analysis.segments searchStartMs searchEndMs with
  | some hit => buildResult track analysis hit "loudest‑segment" previewLength now (some 0.6)
  | none => fallbackDrop track previewLength 0.2 "30‑percent" now

/-- The cache store: a key-value map, `none` meaning no entry. -/
def Cache : Type := String → Option DropAnalysis

/-- `getCacheKey`: `` `${trackId}|${loudnessOffset}|${previewLength}` ``. -/
def getCacheKey (trackId : String) (loudnessOffset previewLength : ℚ) : String :=
  trackId ++ "|" ++ toString loudnessOffset ++ "|" ++ toString previewLength

/-- `getCachedAnalysis`: look the derived key up in the store. -/
def getCachedAnalysis (cache : Cache) (trackId : String)
    (loudnessOffset previewLength : ℚ) : Option DropAnalysis :=
  cache (getCacheKey trackId loudnessOffset previewLength)

/-- `cacheAnalysis`: `put` the result under its key (silent overwrite). -/
def cacheAnalysis (cache : Cache) (cacheKey : String) (a : DropAnalysis) : Cache :=
  fun k => if k = cacheKey then some a else cache k

/-- The `try` block of `detectDrop`: cache lookup with the 7-day freshness
test, then the provider fetch (which may fail) followed by analysis and the
cache write.  Returns the result together with the updated store. -/
noncomputable def tryDetect (track : SpotifyTrack) (loudnessOffset previewLength : ℚ)
    (cache : Cache) (now : ℤ) (analysisResult : Except String AudioAnalysis) :
    Except String (DropAnalysis × Cache) :=
  let cacheKey := getCacheKey track.id loudnessOffset previewLength
  let fetchPath : Except String (DropAnalysis × Cache) := do
    let analysis ← analysisResult
    let dropAnalysis := analyzeForDrop track analysis loudnessOffset previewLength now
    return (dropAnalysis, cacheAnalysis cache cacheKey dropAnalysis)
  match getCachedAnalysis cache track.id loudnessOffset previewLength with
  | some cached =>
    if now - cached.analysisTimestamp < 7 * 24 * 60 * 60 * 1000 then
      Except.ok (cached, cache)
    else fetchPath
  | none => fetchPath

/-- `detectDrop`: the `try` block with its `catch`, which maps any error to
`fallbackDrop(track, previewLength, 0.3, 'error')`. -/
noncomputable def detectDrop (track : SpotifyTrack) (loudnessOffset previewLength : ℚ)
    (cache : Cache) (now : ℤ) (analysisResult : Except String AudioAnalysis) :
    DropAnalysis × Cache :=
  match tryDetect track loudnessOffset previewLength cache now analysisResult with
  | Except.ok r => r
  | Except.error _ => (fallbackDrop track previewLength 0.3 "error" now, cache)


/-! ## Sample inputs used by witnesses and counterexamples -/

/-- The empty cache store. -/
def emptyCache : Cache := fun _ => none

/-- A 100-second track (search window 15 s – 70 s, since 100000 < 240000). -/
def track100 : SpotifyTrack := ⟨"t1", "Song", 100000⟩

/-- A 200-second track (search window 30 s – 140 s). -/
def track200 : SpotifyTrack := ⟨"t2", "Long Song", 200000⟩

/-- Two sections; the second (start 30 s, loudness 10 dB, tempo confidence 1)
qualifies inside the 15 s – 70 s window against the empty-segment threshold 3. -/
def sectionsHit : List AnalysisSection := [⟨0, -60, 0⟩, ⟨30, 10, 1⟩]

/-- An analysis whose only scanner hit is the section at 30 s and whose single
confident bar sits at 500 s, past the end of the 100-second track. -/
def analysisFarBar : AudioAnalysis := ⟨sectionsHit, [], [⟨500, 0.9⟩]⟩

/-- An analysis whose only scanner hit is the section at 30 s; no bars. -/
def analysisHit : AudioAnalysis := ⟨sectionsHit, [], []⟩

/-- An empty analysis: every scanner and the loudest-segment fallback miss. -/
def analysisEmpty : AudioAnalysis := ⟨[], [], []⟩

/-- For `track200`: a qualifying section at 60 s and a confident bar at 10 s,
before the window start (30 s). -/
def analysisEarlyBar : AudioAnalysis := ⟨[⟨0, -60, 0⟩, ⟨60, 10, 1⟩], [], [⟨10, 0.9⟩]⟩

/-- A cached result for `track100` with parameters (3, 20000), computed at 0. -/
def cachedResult : DropAnalysis :=
  ⟨"t1", 500, (0.9 : ℝ), "sections", 20000, 0⟩

/-- A store holding exactly `cachedResult` under the key of `track100`/(3, 20000). -/
def cacheWithEntry : Cache :=
  fun k => if k = getCacheKey "t1" 3 20000 then some cachedResult else none


/-! ## Shared lemmas about the scanner loops -/

section ScanLemmas

variable {α : Type} (q : α → Bool) (mk : α → DropCandidate)

theorem scanBest_concat (L : List α) (a : α) :
    scanBest q mk (L ++ [a]) = scanStep q mk (scanBest q mk L) a := by
  simp [scanBest, List.foldl_append]

theorem scanBest_eq_none_iff (L : List α) :
    scanBest q mk L = none ↔ ∀ a ∈ L, q a = false := by
  induction L using List.reverseRecOn with
  | nil => simp [scanBest]
  | append_singleton L a ih =>
    rw [scanBest_concat]
    unfold scanStep
    rcases hq : q a with _ | _
    · simp only [Bool.false_eq_true, if_false]
      rw [ih]
      constructor
      · intro hall b hb
        rcases List.mem_append.mp hb with hb | hb
        · exact hall b hb
        · simp at hb; subst hb; exact hq
      · intro hall b hb
        exact hall b (List.mem_append.mpr (Or.inl hb))
    · simp only [if_true]
      rcases hprev : scanBest q mk L with _ | b
      · constructor
        · intro hc; exact absurd hc (by simp)
        · intro hall
          exact absurd (hall a (by simp)) (by simp [hq])
      · constructor
        · intro hc
          rcases em ((mk a).score > b.score) with hgt | hle <;> simp_all
        · intro hall
          exact absurd (hall a (by simp)) (by simp [hq])

/-- If the scanner loop returns a candidate, the item list splits as
`earlier ++ x :: later` where `x` is the chosen qualifying item, every
qualifying item in the whole list scores at most the result, and every
qualifying item strictly before `x` scores strictly less: the first
maximum wins (strict `>` replacement). -/
theorem scanBest_spec (L : List α) (c : DropCandidate)
    (h : scanBest q mk L = some c) :
    ∃ earlier x later, L = earlier ++ x :: later ∧
      q x = true ∧ c = mk x ∧
      (∀ y ∈ L, q y = true → (mk y).score ≤ c.score) ∧
      (∀ y ∈ earlier, q y = true → (mk y).score < c.score) := by
  induction L using List.reverseRecOn generalizing c with
  | nil => simp [scanBest] at h
  | append_singleton L a ih =>
    rw [scanBest_concat] at h
    unfold scanStep at h
    rcases hq : q a with _ | _
    · rw [hq] at h
      simp only [Bool.false_eq_true, if_false] at h
      obtain ⟨earlier, x, later, hsplit, hqx, hcx, hmax, hfirst⟩ := ih c h
      refine ⟨earlier, x, later ++ [a], by rw [hsplit]; simp, hqx, hcx, ?_, hfirst⟩
      intro y hy hqy
      rcases List.mem_append.mp hy with hy | hy
      · exact hmax y hy hqy
      · simp at hy; subst hy; simp [hq] at hqy
    · rw [hq] at h
      simp only [if_true] at h
      rcases hprev : scanBest q mk L with _ | b
      · rw [hprev] at h
        injection h with h
        subst h
        have hnone := (scanBest_eq_none_iff q mk L).mp hprev
        refine ⟨L, a, [], rfl, hq, rfl, ?_, ?_⟩
        · intro y hy hqy
          rcases List.mem_append.mp hy with hy | hy
          · exact absurd hqy (by simp [hnone y hy])
          · simp at hy; subst hy; exact le_refl _
        · intro y hy hqy
          exact absurd hqy (by simp [hnone y hy])
      · rw [hprev] at h
        change (if (mk a).score > b.score then some (mk a) else some b) = some c at h
        obtain ⟨earlier, x, later, hsplit, hqx, hcx, hmax, hfirst⟩ := ih b hprev
        rcases em ((mk a).score > b.score) with hgt | hle
        · rw [if_pos hgt] at h
          injection h with h
          subst h
          refine ⟨L, a, [], rfl, hq, rfl, ?_, ?_⟩
          · intro y hy hqy
            rcases List.mem_append.mp hy with hy | hy
            · exact le_of_lt (lt_of_le_of_lt (hmax y hy hqy) hgt)
            · simp at hy; subst hy; exact le_refl _
          · intro y hy hqy
            exact lt_of_le_of_lt (hmax y hy hqy) hgt
        · rw [if_neg hle] at h
          injection h with h
          subst h
          push_neg at hle
          refine ⟨earlier, x, later ++ [a], by rw [hsplit]; simp, hqx, hcx, ?_, hfirst⟩
          intro y hy hqy
          rcases List.mem_append.mp hy with hy | hy
          · exact hmax y hy hqy
          · simp at hy; subst hy; exact hle

/-- A returned candidate is built from some qualifying item of the list. -/
theorem scanBest_mem (L : List α) (c : DropCandidate)
    (h : scanBest q mk L = some c) :
    ∃ x ∈ L, q x = true ∧ c = mk x := by
  obtain ⟨earlier, x, later, hsplit, hqx, hcx, _, _⟩ := scanBest_spec q mk L c h
  exact ⟨x, by rw [hsplit]; simp, hqx, hcx⟩

end ScanLemmas

/-! ## Shared lemmas about the beat snapper -/

theorem snap_foldl_spec (t : ℚ) (bars : List AnalysisBar) :
    (bars.foldl (snapStep t) (t, none) = (t, none) ∧ ∀ b ∈ bars, b.confidence < 0.5) ∨
    (∃ b ∈ bars, ¬b.confidence < 0.5 ∧
      bars.foldl (snapStep t) (t, none) = (b.start, some |b.start - t|) ∧
      ∀ b2 ∈ bars, ¬b2.confidence < 0.5 → |b.start - t| ≤ |b2.start - t|) := by
  induction bars using List.reverseRecOn with
  | nil => left; simp
  | append_singleton L a ih =>
    rw [List.foldl_append]
    simp only [List.foldl_cons, List.foldl_nil]
    rcases ih with ⟨hfold, hall⟩ | ⟨b, hmem, hconf, hfold, hmin⟩
    · rw [hfold]
      unfold snapStep
      rcases em (a.confidence < 0.5) with hc | hc
      · left
        rw [if_pos hc]
        refine ⟨rfl, ?_⟩
        intro b hb
        rcases List.mem_append.mp hb with hb | hb
        · exact hall b hb
        · simp at hb; subst hb; exact hc
      · right
        rw [if_neg hc]
        refine ⟨a, by simp, hc, rfl, ?_⟩
        intro b2 hb2 hc2
        rcases List.mem_append.mp hb2 with hb2 | hb2
        · exact absurd (hall b2 hb2) hc2
        · simp at hb2; subst hb2; exact le_refl _
    · rw [hfold]
      unfold snapStep
      rcases em (a.confidence < 0.5) with hc | hc
      · right
        rw [if_pos hc]
        refine ⟨b, List.mem_append.mpr (Or.inl hmem), hconf, rfl, ?_⟩
        intro b2 hb2 hc2
        rcases List.mem_append.mp hb2 with hb2 | hb2
        · exact hmin b2 hb2 hc2
        · simp at hb2; subst hb2; exact absurd hc hc2
      · rw [if_neg hc]
        rcases em (|a.start - t| < |b.start - t|) with hlt | hge
        · right
          simp only [if_pos hlt]
          refine ⟨a, List.mem_append.mpr (Or.inr (by simp)), hc, rfl, ?_⟩
          intro b2 hb2 hc2
          rcases List.mem_append.mp hb2 with hb2 | hb2
          · exact le_of_lt (lt_of_lt_of_le hlt (hmin b2 hb2 hc2))
          · simp at hb2; subst hb2; exact le_refl _
        · right
          simp only [if_neg hge]
          refine ⟨b, List.mem_append.mpr (Or.inl hmem), hconf, rfl, ?_⟩
          intro b2 hb2 hc2
          rcases List.mem_append.mp hb2 with hb2 | hb2
          · exact hmin b2 hb2 hc2
          · simp at hb2; subst hb2; exact le_of_not_lt hge

/-- The snapper either leaves the target unchanged (and then no bar is
confident), or returns the start of a confident bar at minimal distance. -/
theorem snapToDownbeat_cases (t : ℚ) (bars : List AnalysisBar) :
    (snapToDownbeat t bars = t ∧ ∀ b ∈ bars, b.confidence < 0.5) ∨
    (∃ b ∈ bars, ¬b.confidence < 0.5 ∧ snapToDownbeat t bars = b.start ∧
      ∀ b2 ∈ bars, ¬b2.confidence < 0.5 → |b.start - t| ≤ |b2.start - t|) := by
  rcases snap_foldl_spec t bars with ⟨hfold, hall⟩ | ⟨b, hmem, hconf, hfold, hmin⟩
  · left; exact ⟨by simp [snapToDownbeat, hfold], hall⟩
  · right; exact ⟨b, hmem, hconf, by simp [snapToDownbeat, hfold], hmin⟩

/-- The snapped value is the target itself or the start of some confident bar. -/
theorem snapToDownbeat_result (t : ℚ) (bars : List AnalysisBar) :
    snapToDownbeat t bars = t ∨
    ∃ b ∈ bars, ¬b.confidence < 0.5 ∧ snapToDownbeat t bars = b.start := by
  rcases snapToDownbeat_cases t bars with ⟨h, _⟩ | ⟨b, hmem, hconf, h, _⟩
  · exact Or.inl h
  · exact Or.inr ⟨b, hmem, hconf, h⟩



/-! ## Shared lemmas about the loudest-segment fallback -/

theorem reduce_loudest_spec (h : AnalysisSegment) (t : List AnalysisSegment) :
    t.foldl (fun a b => if b.loudness_max > a.loudness_max then b else a) h ∈ h :: t ∧
    ∀ x ∈ h :: t, x.loudness_max ≤
      (t.foldl (fun a b => if b.loudness_max > a.loudness_max then b else a) h).loudness_max := by
  induction t using List.reverseRecOn with
  | nil => simp
  | append_singleton t a ih =>
    rw [List.foldl_append]
    simp only [List.foldl_cons, List.foldl_nil]
    obtain ⟨hmem, hmax⟩ := ih
    rcases em (a.loudness_max >
        (t.foldl (fun a b => if b.loudness_max > a.loudness_max then b else a) h).loudness_max)
      with hgt | hle
    · rw [if_pos hgt]
      refine ⟨by simp, ?_⟩
      intro x hx
      rcases List.mem_cons.mp hx with hx | hx
      · subst hx
        exact le_of_lt (lt_of_le_of_lt (hmax x (by simp)) hgt)
      · rcases List.mem_append.mp hx with hx | hx
        · exact le_of_lt (lt_of_le_of_lt (hmax x (List.mem_cons.mpr (Or.inr hx))) hgt)
        · simp at hx; subst hx; exact le_refl _
    · rw [if_neg hle]
      refine ⟨?_, ?_⟩
      · rcases List.mem_cons.mp hmem with hm | hm
        · rw [hm]; simp
        · exact List.mem_cons.mpr (Or.inr (List.mem_append.mpr (Or.inl hm)))
      · intro x hx
        rcases List.mem_cons.mp hx with hx | hx
        · subst hx; exact hmax x (by simp)
        · rcases List.mem_append.mp hx with hx | hx
          · exact hmax x (List.mem_cons.mpr (Or.inr hx))
          · simp at hx; subst hx; exact le_of_not_lt hle

theorem loudestSegmentInRange_eq_none_iff (segments : List AnalysisSegment)
    (startMs endMs : ℚ) :
    loudestSegmentInRange segments startMs endMs = none ↔
      ∀ seg ∈ segments, ¬(startMs / 1000 ≤ seg.start ∧ seg.start ≤ endMs / 1000) := by
  unfold loudestSegmentInRange
  rcases hf : segments.filter
      (fun seg => decide (seg.start ≥ startMs / 1000) && decide (seg.start ≤ endMs / 1000))
    with _ | ⟨hd, t⟩
  · have hfe := hf
    rw [List.filter_eq_nil_iff] at hfe
    simp only [hf, true_iff]
    intro seg hseg hw
    have := hfe seg hseg
    simp only [Bool.and_eq_true, decide_eq_true_eq, ge_iff_le, not_and, not_le] at this
    exact absurd hw.2 (not_le.mpr (this hw.1))
  · simp only [hf, reduceCtorEq, false_iff]
    have hh : hd ∈ segments.filter
        (fun seg => decide (seg.start ≥ startMs / 1000) && decide (seg.start ≤ endMs / 1000)) := by
      rw [hf]; simp
    have hmf := List.mem_filter.mp hh
    simp only [Bool.and_eq_true, decide_eq_true_eq, ge_iff_le] at hmf
    intro hall
    exact hall hd hmf.1 ⟨hmf.2.1, hmf.2.2⟩

theorem loudestSegmentInRange_spec (segments : List AnalysisSegment)
    (startMs endMs : ℚ) (c : DropCandidate)
    (h : loudestSegmentInRange segments startMs endMs = some c) :
    ∃ seg ∈ segments, startMs / 1000 ≤ seg.start ∧ seg.start ≤ endMs / 1000 ∧
      c = ⟨seg.start, 0.6⟩ ∧
      ∀ seg2 ∈ segments, startMs / 1000 ≤ seg2.start → seg2.start ≤ endMs / 1000 →
        seg2.loudness_max ≤ seg.loudness_max := by
  unfold loudestSegmentInRange at h
  rcases hf : segments.filter
      (fun seg => decide (seg.start ≥ startMs / 1000) && decide (seg.start ≤ endMs / 1000))
    with _ | ⟨hd, t⟩
  · simp [hf] at h
  · simp only [hf] at h
    have hin : ∀ x, x ∈ hd :: t ↔ x ∈ segments ∧
        startMs / 1000 ≤ x.start ∧ x.start ≤ endMs / 1000 := by
      intro x
      rw [← hf]
      constructor
      · intro hx
        have := List.mem_filter.mp hx
        simp only [Bool.and_eq_true, decide_eq_true_eq, ge_iff_le] at this
        exact ⟨this.1, this.2.1, this.2.2⟩
      · intro hx
        apply List.mem_filter.mpr
        simp only [Bool.and_eq_true, decide_eq_true_eq, ge_iff_le]
        exact ⟨hx.1, hx.2.1, hx.2.2⟩
    obtain ⟨hmem, hmax⟩ := reduce_loudest_spec hd t
    set loudest := t.foldl (fun a b => if b.loudness_max > a.loudness_max then b else a) hd with hl
    have hc : c = ⟨loudest.start, 0.6⟩ := by
      injection h with h
      rw [← h]
    obtain ⟨hseg, hs, he⟩ := (hin loudest).mp hmem
    refine ⟨loudest, hseg, hs, he, hc, ?_⟩
    intro seg2 hseg2 hs2 he2
    exact hmax seg2 ((hin seg2).mpr ⟨hseg2, hs2, he2⟩)

/-! ## Shared bounds lemmas -/

/-- The logistic squash lands inside `[0, 1]` (in fact strictly). -/
theorem squash_bounds (x : ℝ) : 0 ≤ squash x ∧ squash x ≤ 1 := by
  unfold squash
  have hexp : 0 < Real.exp (-0.6 * (x - 5)) := Real.exp_pos _
  constructor
  · positivity
  · rw [div_le_one (by linarith)]
    linarith

/-- A scanner hit of `findDropInSections` starts inside the search window. -/
theorem findDropInSections_window (sections : List AnalysisSection)
    (startMs endMs thresh : ℚ) (c : DropCandidate)
    (h : findDropInSections sections startMs endMs thresh = some c) :
    startMs / 1000 ≤ c.start ∧ c.start ≤ endMs / 1000 := by
  unfold findDropInSections at h
  obtain ⟨x, _, hq, hc⟩ := scanBest_mem _ _ _ _ h
  unfold sectionQualifies at hq
  simp only [Bool.and_eq_true, Bool.not_eq_eq_eq_not, Bool.not_true, Bool.or_eq_false_iff,
    decide_eq_false_iff_not] at hq
  subst hc
  exact ⟨le_of_not_lt hq.1.1, le_of_not_lt hq.1.2⟩

/-- A scanner hit of `findDropInSegments` starts inside the search window. -/
theorem findDropInSegments_window (segments : List AnalysisSegment)
    (startMs endMs thresh : ℚ) (c : DropCandidate)
    (h : findDropInSegments segments startMs endMs thresh = some c) :
    startMs / 1000 ≤ c.start ∧ c.start ≤ endMs / 1000 := by
  unfold findDropInSegments at h
  obtain ⟨x, _, hq, hc⟩ := scanBest_mem _ _ _ _ h
  unfold segmentQualifies at hq
  simp only [Bool.and_eq_true, Bool.not_eq_eq_eq_not, Bool.not_true, Bool.or_eq_false_iff,
    decide_eq_false_iff_not] at hq
  subst hc
  exact ⟨le_of_not_lt hq.1.1, le_of_not_lt hq.1.2⟩


/-- Bounds for the shared fallback builder: the 30 % mark lies inside
`[0, durationMs]` and the given literal confidence is passed through. -/
theorem fallbackDrop_bounds (track : SpotifyTrack) (pl : ℚ) (conf : ℝ)
    (method : String) (now : ℤ) (hdur : 0 ≤ track.duration_ms)
    (hconf : 0 ≤ conf ∧ conf ≤ 1) :
    0 ≤ (fallbackDrop track pl conf method now).dropStart ∧
    ((fallbackDrop track pl conf method now).dropStart : ℚ) ≤ track.duration_ms ∧
    0 ≤ (fallbackDrop track pl conf method now).confidence ∧
    (fallbackDrop track pl conf method now).confidence ≤ 1 := by
  unfold fallbackDrop
  refine ⟨?_, ?_, hconf.1, hconf.2⟩
  · rw [Int.le_floor]
    push_cast
    nlinarith
  · calc ((⌊track.duration_ms * 0.3⌋ : ℤ) : ℚ) ≤ track.duration_ms * 0.3 := Int.floor_le _
      _ ≤ track.duration_ms := by nlinarith

/-- Bounds for `buildResult`: if the candidate and every confident bar lie
inside `[0, durationMs]`, so does the snapped drop start, and the attached
confidence (logistic squash or an override from `[0,1]`) lies in `[0,1]`. -/
theorem buildResult_bounds (track : SpotifyTrack) (analysis : AudioAnalysis)
    (candidate : DropCandidate) (method : String) (pl : ℚ) (now : ℤ)
    (override : Option ℝ)
    (hcand : 0 ≤ candidate.start ∧ candidate.start * 1000 ≤ track.duration_ms)
    (hbars : ∀ b ∈ analysis.bars, ¬b.confidence < 0.5 →
      0 ≤ b.start ∧ b.start * 1000 ≤ track.duration_ms)
    (hconf : override = none ∨ ∃ cf, override = some cf ∧ 0 ≤ cf ∧ cf ≤ 1) :
    0 ≤ (buildResult track analysis candidate method pl now override).dropStart ∧
    ((buildResult track analysis candidate method pl now override).dropStart : ℚ) ≤
      track.duration_ms ∧
    0 ≤ (buildResult track analysis candidate method pl now override).confidence ∧
    (buildResult track analysis candidate method pl now override).confidence ≤ 1 := by
  unfold buildResult
  have hsnap : 0 ≤ snapToDownbeat candidate.start analysis.bars ∧
      snapToDownbeat candidate.start analysis.bars * 1000 ≤ track.duration_ms := by
    rcases snapToDownbeat_result candidate.start analysis.bars with h | ⟨b, hm, hcf, h⟩
    · rw [h]; exact hcand
    · rw [h]; exact hbars b hm hcf
  refine ⟨?_, ?_, ?_, ?_⟩
  · rw [Int.le_floor]
    push_cast
    exact hsnap.1.trans (by linarith [hsnap.1])
  · calc ((⌊snapToDownbeat candidate.start analysis.bars * 1000⌋ : ℤ) : ℚ) ≤
        snapToDownbeat candidate.start analysis.bars * 1000 := Int.floor_le _
      _ ≤ track.duration_ms := hsnap.2
  · rcases hconf with h | ⟨cf, h, h0, _⟩
    · rw [h]
      exact (squash_bounds _).1
    · rw [h]
      exact h0
  · rcases hconf with h | ⟨cf, h, _, h1⟩
    · rw [h]
      exact (squash_bounds _).2
    · rw [h]
      exact h1

/-- Bounds for `analyzeForDrop` on every branch of the fallback chain. -/
theorem analyzeForDrop_bounds (track : SpotifyTrack) (analysis : AudioAnalysis)
    (off pl : ℚ) (now : ℤ) (hdur : 0 ≤ track.duration_ms)
    (hbars : ∀ b ∈ analysis.bars, ¬b.confidence < 0.5 →
      0 ≤ b.start ∧ b.start * 1000 ≤ track.duration_ms) :
    0 ≤ (analyzeForDrop track analysis off pl now).dropStart ∧
    ((analyzeForDrop track analysis off pl now).dropStart : ℚ) ≤ track.duration_ms ∧
    0 ≤ (analyzeForDrop track analysis off pl now).confidence ∧
    (analyzeForDrop track analysis off pl now).confidence ≤ 1 := by
  unfold analyzeForDrop
  set sMs := track.duration_ms * 0.15 with hsMs
  set eMs := track.duration_ms * (if track.duration_ms < 240000 then (0.7 : ℚ) else 0.8)
    with heMs
  have hs0 : 0 ≤ sMs := by rw [hsMs]; positivity
  have heBound : eMs ≤ track.duration_ms := by
    rw [heMs]
    rcases em (track.duration_ms < 240000) with hlt | hge
    · rw [if_pos hlt]; nlinarith
    · rw [if_neg hge]; nlinarith
  have hwin : ∀ c : DropCandidate, sMs / 1000 ≤ c.start → c.start ≤ eMs / 1000 →
      0 ≤ c.start ∧ c.start * 1000 ≤ track.duration_ms := by
    intro c h1 h2
    constructor
    · have : (0 : ℚ) ≤ sMs / 1000 := by positivity
      linarith
    · have : c.start * 1000 ≤ eMs := by
        rw [le_div_iff₀ (by norm_num : (0 : ℚ) < 1000)] at h2
        exact h2
      linarith
  set th := median (analysis.segments.map (fun sg => sg.loudness_max)) + off with hth
  rcases hsec : findDropInSections analysis.sections sMs eMs th with _ | sectionHit
  · rcases hseg : findDropInSegments analysis.segments sMs eMs th with _ | segmentHit
    · rcases hloud : loudestSegmentInRange analysis.segments sMs eMs with _ | hit
      · simp only [hsec, hseg, hloud]
        exact fallbackDrop_bounds track pl 0.2 "30‑percent" now hdur (by norm_num)
      · simp only [hsec, hseg, hloud]
        obtain ⟨seg, _, h1, h2, hc, _⟩ := loudestSegmentInRange_spec _ _ _ _ hloud
        refine buildResult_bounds track analysis hit "loudest‑segment" pl now (some 0.6)
          (hwin hit ?_ ?_) hbars (Or.inr ⟨0.6, rfl, by norm_num, by norm_num⟩)
        · rw [hc]; exact h1
        · rw [hc]; exact h2
    · simp only [hsec, hseg]
      obtain ⟨h1, h2⟩ := findDropInSegments_window _ _ _ _ _ hseg
      exact buildResult_bounds track analysis segmentHit "segments" pl now none
        (hwin segmentHit h1 h2) hbars (Or.inl rfl)
  · simp only [hsec]
    obtain ⟨h1, h2⟩ := findDropInSections_window _ _ _ _ _ hsec
    exact buildResult_bounds track analysis sectionHit "sections" pl now none
      (hwin sectionHit h1 h2) hbars (Or.inl rfl)


/-- On a cache miss (no entry, or an entry failing the 7-day freshness
test), the `try` block is the fetch-and-analyze path. -/
theorem tryDetect_miss (track : SpotifyTrack) (off pl : ℚ) (cache : Cache)
    (now : ℤ) (ar : Except String AudioAnalysis)
    (hmiss : ∀ cch, getCachedAnalysis cache track.id off pl = some cch →
      ¬(now - cch.analysisTimestamp < 7 * 24 * 60 * 60 * 1000)) :
    tryDetect track off pl cache now ar =
      match ar with
      | Except.ok analysis =>
          Except.ok (analyzeForDrop track analysis off pl now,
            cacheAnalysis cache (getCacheKey track.id off pl)
              (analyzeForDrop track analysis off pl now))
      | Except.error e => Except.error e := by
  unfold tryDetect
  rcases hc : getCachedAnalysis cache track.id off pl with _ | cched
  · simp only [hc]
    cases ar <;> rfl
  · simp only [hc]
    rw [if_neg (hmiss cched hc)]
    cases ar <;> rfl

/-! ## Claim C1 -/

/-- C1 (amended): for every track with `durationMs ≥ 0`, on a cache miss,
provided every confident (≥ 0.5) bar of the analysis starts inside
`[0, durationMs]`, `detectDrop` returns a result with
`0 ≤ dropStart ≤ durationMs` and `0 ≤ confidence ≤ 1`, on every path
(scanner hit, loudest segment, hard fallback, error fallback).  Without the
bar hypothesis the claim fails: the beat snapper may move the drop to any
confident bar, wherever it lies (see the counterexample). -/
theorem detectDrop_bounds (track : SpotifyTrack) (off pl : ℚ) (cache : Cache)
    (now : ℤ) (ar : Except String AudioAnalysis)
    (hdur : 0 ≤ track.duration_ms)
    (hmiss : ∀ cch, getCachedAnalysis cache track.id off pl = some cch →
      ¬(now - cch.analysisTimestamp < 7 * 24 * 60 * 60 * 1000))
    (hbars : ∀ a, ar = Except.ok a → ∀ b ∈ a.bars, ¬b.confidence < 0.5 →
      0 ≤ b.start ∧ b.start * 1000 ≤ track.duration_ms) :
    0 ≤ (detectDrop track off pl cache now ar).1.dropStart ∧
    (((detectDrop track off pl cache now ar).1.dropStart : ℤ) : ℚ) ≤ track.duration_ms ∧
    0 ≤ (detectDrop track off pl cache now ar).1.confidence ∧
    (detectDrop track off pl cache now ar).1.confidence ≤ 1 := by
  have ht := tryDetect_miss track off pl cache now ar hmiss
  unfold detectDrop
  rcases ar with e | a
  · rw [ht]
    exact fallbackDrop_bounds track pl 0.3 "error" now hdur (by norm_num)
  · rw [ht]
    exact analyzeForDrop_bounds track a off pl now hdur (hbars a rfl)

/-- C1 witness: the bounds at a concrete track, cache-missing store and
well-formed analysis. -/
theorem detectDrop_bounds_witness :
    0 ≤ (detectDrop track100 3 20000 emptyCache 0 (Except.ok analysisHit)).1.dropStart ∧
    (((detectDrop track100 3 20000 emptyCache 0 (Except.ok analysisHit)).1.dropStart : ℤ) : ℚ) ≤
      track100.duration_ms ∧
    0 ≤ (detectDrop track100 3 20000 emptyCache 0 (Except.ok analysisHit)).1.confidence ∧
    (detectDrop track100 3 20000 emptyCache 0 (Except.ok analysisHit)).1.confidence ≤ 1 :=
  detectDrop_bounds track100 3 20000 emptyCache 0 (Except.ok analysisHit)
    (by norm_num [track100])
    (by intro cch h; simp [getCachedAnalysis, emptyCache] at h)
    (by intro a h b hb _; injection h with h; subst h; simp [analysisHit] at hb)

/-- C1 counterexample: with a confident bar at 500 s on a 100-second track,
the snapped drop start (500 000 ms) exceeds the track duration, so the
claim's bound `dropStartMs ≤ durationMs` fails for this analysis feature
set. -/
theorem detectDrop_bounds_cex :
    (detectDrop track100 3 20000 emptyCache 0 (Except.ok analysisFarBar)).1.dropStart = 500000 ∧
    ¬((((detectDrop track100 3 20000 emptyCache 0
        (Except.ok analysisFarBar)).1.dropStart : ℤ) : ℚ) ≤ track100.duration_ms) := by
  have h : (detectDrop track100 3 20000 emptyCache 0
      (Except.ok analysisFarBar)).1.dropStart = 500000 := by
    norm_num [detectDrop, tryDetect, getCachedAnalysis, emptyCache, track100, analysisFarBar,
      sectionsHit, analyzeForDrop, findDropInSections, findDropInSegments, scanBest, scanStep,
      sectionQualifies, sectionScore, segmentQualifies, segmentScore, median, buildResult,
      snapToDownbeat, snapStep, bind, Except.bind, Except.pure, pure, loudestSegmentInRange]
  refine ⟨h, ?_⟩
  rw [h]
  norm_num [track100]


/-! ## Claim C2 -/

/-- C2: `detectDrop` never propagates an error.  For every input the `try`
body either succeeds — and `detectDrop` returns its result — or fails with
some error, which the `catch` absorbs into the error-fallback result; in
both cases the caller receives a `DropAnalysis`, never an exception. -/
theorem detectDrop_never_raises (track : SpotifyTrack) (off pl : ℚ) (cache : Cache)
    (now : ℤ) (ar : Except String AudioAnalysis) :
    (∃ r, tryDetect track off pl cache now ar = Except.ok r ∧
      detectDrop track off pl cache now ar = r) ∨
    (∃ msg, tryDetect track off pl cache now ar = Except.error msg ∧
      detectDrop track off pl cache now ar =
        (fallbackDrop track pl 0.3 "error" now, cache)) := by
  rcases h : tryDetect track off pl cache now ar with msg | r
  · right
    refine ⟨msg, rfl, ?_⟩
    unfold detectDrop
    rw [h]
  · left
    refine ⟨r, rfl, ?_⟩
    unfold detectDrop
    rw [h]

/-! ## Claim C3 -/

/-- C3 counterexample: on a failing provider call the code returns
`floor(durationMs * 0.3)` (30 000 ms for a 100-second track) with method
`error`, not the claimed `floor(durationMs * 0.2)` (20 000 ms) with method
`error-fallback`. -/
theorem errorFallback_cex :
    (detectDrop track100 3 20000 emptyCache 0 (Except.error "network")).1.dropStart = 30000 ∧
    (detectDrop track100 3 20000 emptyCache 0 (Except.error "network")).1.method = "error" ∧
    ¬((detectDrop track100 3 20000 emptyCache 0 (Except.error "network")).1.dropStart =
        ⌊track100.duration_ms * 0.2⌋ ∧
      (detectDrop track100 3 20000 emptyCache 0 (Except.error "network")).1.method =
        "error-fallback") := by
  have h1 : (detectDrop track100 3 20000 emptyCache 0
      (Except.error "network")).1.dropStart = 30000 := by
    norm_num [detectDrop, tryDetect, getCachedAnalysis, emptyCache, fallbackDrop, track100]
  have h2 : (detectDrop track100 3 20000 emptyCache 0
      (Except.error "network")).1.method = "error" := by
    norm_num [detectDrop, tryDetect, getCachedAnalysis, emptyCache, fallbackDrop, track100]
  have h3 : (⌊track100.duration_ms * 0.2⌋ : ℤ) = 20000 := by
    norm_num [track100]
  refine ⟨h1, h2, ?_⟩
  rintro ⟨ha, _⟩
  rw [h1, h3] at ha
  exact absurd ha (by norm_num)

/-- C3 (amended): when the provider call fails on a cache miss, the result
is `floor(durationMs * 0.3)` with confidence 0.3 and method `error`, for
every track; the store is left untouched. -/
theorem errorFallback_result (track : SpotifyTrack) (off pl : ℚ) (cache : Cache)
    (now : ℤ) (msg : String)
    (hmiss : ∀ cch, getCachedAnalysis cache track.id off pl = some cch →
      ¬(now - cch.analysisTimestamp < 7 * 24 * 60 * 60 * 1000)) :
    (detectDrop track off pl cache now (Except.error msg)).1.dropStart =
      ⌊track.duration_ms * 0.3⌋ ∧
    (detectDrop track off pl cache now (Except.error msg)).1.confidence = 0.3 ∧
    (detectDrop track off pl cache now (Except.error msg)).1.method = "error" ∧
    (detectDrop track off pl cache now (Except.error msg)).2 = cache := by
  have ht := tryDetect_miss track off pl cache now (Except.error msg) hmiss
  unfold detectDrop
  rw [ht]
  exact ⟨rfl, rfl, rfl, rfl⟩

/-- C3 witness: the amended error-fallback equations at a concrete track. -/
theorem errorFallback_result_witness :
    (detectDrop track100 3 20000 emptyCache 5 (Except.error "auth")).1.dropStart =
      ⌊track100.duration_ms * 0.3⌋ ∧
    (detectDrop track100 3 20000 emptyCache 5 (Except.error "auth")).1.confidence = 0.3 ∧
    (detectDrop track100 3 20000 emptyCache 5 (Except.error "auth")).1.method = "error" ∧
    (detectDrop track100 3 20000 emptyCache 5 (Except.error "auth")).2 = emptyCache :=
  errorFallback_result track100 3 20000 emptyCache 5 "auth"
    (by intro cch h; simp [getCachedAnalysis, emptyCache] at h)

/-! ## Claim C4 -/

/-- C4 counterexample: after a provider failure on a cache miss the store
still holds nothing under the derived key — the error-fallback result is
returned but never written to the cache. -/
theorem detectDrop_cache_cex :
    (detectDrop track100 3 20000 emptyCache 0 (Except.error "boom")).2
      (getCacheKey track100.id 3 20000) = none := by
  rfl

/-- C4 (amended): on a cache miss where the provider call succeeds, the run
ends by writing the returned result (including a hard-fallback result) to
the store under the derived key; the error-fallback path leaves the store
unchanged. -/
theorem detectDrop_caches_on_success (track : SpotifyTrack) (off pl : ℚ)
    (cache : Cache) (now : ℤ) (a : AudioAnalysis)
    (hmiss : ∀ cch, getCachedAnalysis cache track.id off pl = some cch →
      ¬(now - cch.analysisTimestamp < 7 * 24 * 60 * 60 * 1000)) :
    (detectDrop track off pl cache now (Except.ok a)).2 (getCacheKey track.id off pl) =
      some ((detectDrop track off pl cache now (Except.ok a)).1) ∧
    ∀ msg, (detectDrop track off pl cache now (Except.error msg)).2 = cache := by
  constructor
  · have ht := tryDetect_miss track off pl cache now (Except.ok a) hmiss
    unfold detectDrop
    rw [ht]
    simp [cacheAnalysis]
  · intro msg
    have ht := tryDetect_miss track off pl cache now (Except.error msg) hmiss
    unfold detectDrop
    rw [ht]

/-- C4 witness: a concrete run through the hard-fallback path (empty
analysis) does write its result to the store. -/
theorem detectDrop_caches_on_success_witness :
    (detectDrop track100 3 20000 emptyCache 0 (Except.ok analysisEmpty)).2
      (getCacheKey track100.id 3 20000) =
      some ((detectDrop track100 3 20000 emptyCache 0 (Except.ok analysisEmpty)).1) ∧
    ∀ msg, (detectDrop track100 3 20000 emptyCache 0 (Except.error msg)).2 = emptyCache :=
  detectDrop_caches_on_success track100 3 20000 emptyCache 0 analysisEmpty
    (by intro cch h; simp [getCachedAnalysis, emptyCache] at h)


/-! ## Claim C5 -/

/-- C5: strict fallback priority.  A section-scanner candidate is always
used (regardless of what the segment scanner would return); the
segment-scanner candidate is used only when the section scanner misses; the
loudest in-window segment — with fixed confidence 0.6 — only when both
scanners miss; and the hard 30 % fallback with confidence 0.2 only when, in
addition, no segment starts inside the window (which is exactly when the
loudest-segment step misses). -/
theorem analyzeForDrop_priority (track : SpotifyTrack) (a : AudioAnalysis)
    (off pl : ℚ) (now : ℤ) (sMs eMs th : ℚ)
    (hs : sMs = track.duration_ms * 0.15)
    (he : eMs = track.duration_ms * (if track.duration_ms < 240000 then (0.7 : ℚ) else 0.8))
    (hth : th = median (a.segments.map (fun sg => sg.loudness_max)) + off) :
    (∀ c, findDropInSections a.sections sMs eMs th = some c →
      analyzeForDrop track a off pl now = buildResult track a c "sections" pl now none) ∧
    (findDropInSections a.sections sMs eMs th = none →
      ∀ c, findDropInSegments a.segments sMs eMs th = some c →
        analyzeForDrop track a off pl now = buildResult track a c "segments" pl now none) ∧
    (findDropInSections a.sections sMs eMs th = none →
      findDropInSegments a.segments sMs eMs th = none →
        ∀ c, loudestSegmentInRange a.segments sMs eMs = some c →
          analyzeForDrop track a off pl now =
            buildResult track a c "loudest‑segment" pl now (some 0.6)) ∧
    (findDropInSections a.sections sMs eMs th = none →
      findDropInSegments a.segments sMs eMs th = none →
        loudestSegmentInRange a.segments sMs eMs = none →
          analyzeForDrop track a off pl now = fallbackDrop track pl 0.2 "30‑percent" now) ∧
    (loudestSegmentInRange a.segments sMs eMs = none ↔
      ∀ seg ∈ a.segments, ¬(sMs / 1000 ≤ seg.start ∧ seg.start ≤ eMs / 1000)) := by
  subst hs he hth
  refine ⟨?_, ?_, ?_, ?_, loudestSegmentInRange_eq_none_iff a.segments _ _⟩
  · intro c hc
    unfold analyzeForDrop
    simp only [hc]
  · intro h1 c hc
    unfold analyzeForDrop
    simp only [h1, hc]
  · intro h1 h2 c hc
    unfold analyzeForDrop
    simp only [h1, h2, hc]
  · intro h1 h2 h3
    unfold analyzeForDrop
    simp only [h1, h2, h3]

/-- C5 witness: at a concrete analysis whose section scanner hits at 30 s
with score 17, the orchestration uses exactly that candidate and the
`sections` method. -/
theorem analyzeForDrop_priority_witness :
    analyzeForDrop track100 analysisHit 3 20000 0 =
      buildResult track100 analysisHit ⟨30, 17⟩ "sections" 20000 0 none :=
  (analyzeForDrop_priority track100 analysisHit 3 20000 0 15000 70000 3
    (by norm_num [track100])
    (by norm_num [track100])
    (by simp [analysisHit, median])).1 ⟨30, 17⟩
    (by norm_num [findDropInSections, scanBest, scanStep, sectionQualifies, sectionScore,
      analysisHit, sectionsHit])

/-! ## Claim C6 -/

/-- C6 counterexample: an entry whose age is exactly 7 days
(now − computedAt = 604 800 000 ms, which "does not exceed 7 days") is
nevertheless treated as absent: the code requires strict `<`, so the run
recomputes and returns a different result instead of the cached one. -/
theorem cache_expiry_cex :
    (604800000 : ℤ) - cachedResult.analysisTimestamp ≤ 7 * 24 * 60 * 60 * 1000 ∧
    getCachedAnalysis cacheWithEntry "t1" 3 20000 = some cachedResult ∧
    (detectDrop track100 3 20000 cacheWithEntry 604800000
      (Except.ok analysisEmpty)).1 ≠ cachedResult := by
  refine ⟨by norm_num [cachedResult], by simp [getCachedAnalysis, cacheWithEntry], ?_⟩
  have hm : (detectDrop track100 3 20000 cacheWithEntry 604800000
      (Except.ok analysisEmpty)).1.method = "30‑percent" := by
    norm_num [detectDrop, tryDetect, getCachedAnalysis, cacheWithEntry, track100, cachedResult,
      analysisEmpty, analyzeForDrop, findDropInSections, findDropInSegments, scanBest,
      loudestSegmentInRange, fallbackDrop, median]
  intro h
  have := congrArg DropAnalysis.method h
  rw [hm] at this
  simp [cachedResult] at this

/-- C6 (amended): if the store holds an entry for the derived key whose age
is strictly below 7 days, `detectDrop` returns exactly that entry with the
store untouched, independently of the provider response (the provider is
not consulted); an entry of age ≥ 7 days is treated as absent — the
detection result is the same as with an empty store. -/
theorem detectDrop_cache_semantics (track : SpotifyTrack) (off pl : ℚ)
    (cache : Cache) (now : ℤ) (c : DropAnalysis)
    (hc : getCachedAnalysis cache track.id off pl = some c) :
    (now - c.analysisTimestamp < 7 * 24 * 60 * 60 * 1000 →
      ∀ ar, detectDrop track off pl cache now ar = (c, cache)) ∧
    (¬(now - c.analysisTimestamp < 7 * 24 * 60 * 60 * 1000) →
      ∀ ar, (detectDrop track off pl cache now ar).1 =
        (detectDrop track off pl emptyCache now ar).1) := by
  constructor
  · intro hf ar
    have htry : tryDetect track off pl cache now ar = Except.ok (c, cache) := by
      unfold tryDetect
      simp only [hc]
      rw [if_pos hf]
    unfold detectDrop
    rw [htry]
  · intro hstale ar
    have h1 := tryDetect_miss track off pl cache now ar
      (by intro cch hcch; rw [hc] at hcch; injection hcch with e; subst e; exact hstale)
    have h2 := tryDetect_miss track off pl emptyCache now ar
      (by intro cch hcch; simp [getCachedAnalysis, emptyCache] at hcch)
    unfold detectDrop
    rw [h1, h2]
    cases ar <;> rfl

/-- C6 witness: a one-millisecond-old entry is returned as-is, for an
arbitrary (even failing) provider response, with the store unchanged. -/
theorem detectDrop_cache_semantics_witness :
    detectDrop track100 3 20000 cacheWithEntry 1 (Except.error "ignored") =
      (cachedResult, cacheWithEntry) :=
  (detectDrop_cache_semantics track100 3 20000 cacheWithEntry 1 cachedResult
    (by simp [getCachedAnalysis, cacheWithEntry, track100])).1
    (by norm_num [cachedResult]) _


/-! ## Claim C7 -/

/-- C7 counterexample: a list whose only section is qualifying and
in-window, yet the scanner returns nothing — the loop starts at index 1, so
the first section is never a candidate, contradicting "returns the
qualifying in-window section with the highest score". -/
theorem findDropInSections_cex :
    findDropInSections [⟨30, 10, 1⟩] 15000 70000 3 = none ∧
    sectionQualifies (15000 / 1000) (70000 / 1000) 3 ⟨30, 10, 1⟩ = true := by
  constructor
  · rfl
  · norm_num [sectionQualifies]

/-- C7 (amended): among the predecessor/section pairs (the first section,
having no predecessor, is never a candidate), the scanner returns the
qualifying in-window section maximizing
`(loudness+60)/10 + 4·tempo_confidence + 4-point jump bonus (loudness more
than 2 dB above the immediately preceding section) + 2-point positional
bonus (ratio strictly between 0.2 and 0.8)`; there is no separate bonus for
tempo confidence above 0.7 — tempo confidence enters only through the 4×
weight.  On equal scores the earlier section wins: every qualifying pair
strictly before the chosen one scores strictly less. -/
theorem findDropInSections_argmax (sections : List AnalysisSection)
    (startMs endMs thresh : ℚ) (c : DropCandidate)
    (h : findDropInSections sections startMs endMs thresh = some c) :
    ∃ earlier pc later,
      sections.zip (sections.drop 1) = earlier ++ pc :: later ∧
      sectionQualifies (startMs / 1000) (endMs / 1000) thresh pc.2 = true ∧
      c = ⟨pc.2.start,
        sectionScore (startMs / 1000) (endMs / 1000 - startMs / 1000) pc.1 pc.2⟩ ∧
      (∀ qc ∈ sections.zip (sections.drop 1),
        sectionQualifies (startMs / 1000) (endMs / 1000) thresh qc.2 = true →
          sectionScore (startMs / 1000) (endMs / 1000 - startMs / 1000) qc.1 qc.2 ≤ c.score) ∧
      (∀ qc ∈ earlier,
        sectionQualifies (startMs / 1000) (endMs / 1000) thresh qc.2 = true →
          sectionScore (startMs / 1000) (endMs / 1000 - startMs / 1000) qc.1 qc.2 < c.score) := by
  unfold findDropInSections at h
  obtain ⟨earlier, x, later, hsplit, hqx, hcx, hmax, hfirst⟩ := scanBest_spec _ _ _ _ h
  exact ⟨earlier, x, later, hsplit, hqx, hcx,
    fun qc hqc hq => hmax qc hqc hq, fun qc hqc hq => hfirst qc hqc hq⟩

/-- C7 witness: the amended argmax characterization at a two-section list
whose second section is the (unique) qualifying candidate. -/
theorem findDropInSections_argmax_witness :
    ∃ earlier pc later,
      sectionsHit.zip (sectionsHit.drop 1) = earlier ++ pc :: later ∧
      sectionQualifies (15000 / 1000) (70000 / 1000) 3 pc.2 = true ∧
      (⟨30, 17⟩ : DropCandidate) = ⟨pc.2.start,
        sectionScore (15000 / 1000) (70000 / 1000 - 15000 / 1000) pc.1 pc.2⟩ ∧
      (∀ qc ∈ sectionsHit.zip (sectionsHit.drop 1),
        sectionQualifies (15000 / 1000) (70000 / 1000) 3 qc.2 = true →
          sectionScore (15000 / 1000) (70000 / 1000 - 15000 / 1000) qc.1 qc.2 ≤
            (⟨30, 17⟩ : DropCandidate).score) ∧
      (∀ qc ∈ earlier,
        sectionQualifies (15000 / 1000) (70000 / 1000) 3 qc.2 = true →
          sectionScore (15000 / 1000) (70000 / 1000 - 15000 / 1000) qc.1 qc.2 <
            (⟨30, 17⟩ : DropCandidate).score) :=
  findDropInSections_argmax sectionsHit 15000 70000 3 ⟨30, 17⟩
    (by norm_num [findDropInSections, scanBest, scanStep, sectionQualifies, sectionScore,
      sectionsHit])

/-! ## Claim C8 -/

/-- C8 counterexample: a list whose only segment is qualifying and
in-window, yet the scanner returns nothing — the loop starts at index 1, so
the first segment is never a candidate, contradicting "returns the
qualifying in-window segment with the highest score". -/
theorem findDropInSegments_cex :
    findDropInSegments [⟨30, 10, [50, 50]⟩] 15000 70000 3 = none ∧
    segmentQualifies (15000 / 1000) (70000 / 1000) 3 ⟨30, 10, [50, 50]⟩ = true := by
  constructor
  · rfl
  · norm_num [segmentQualifies]

/-- C8 (amended): among the predecessor/segment pairs (the first segment,
having no predecessor, is never a candidate), the scanner returns the
in-window segment with `loudness_max` at least the threshold maximizing
`3·max(0, jump) + (loudness_max+60)/15`, where the jump is measured against
the immediately preceding segment whether or not that segment qualifies;
the timbre coefficients contribute nothing and there is no flat bonus for a
jump above 3 dB.  On equal scores the earlier segment wins. -/
theorem findDropInSegments_argmax (segments : List AnalysisSegment)
    (startMs endMs thresh : ℚ) (c : DropCandidate)
    (h : findDropInSegments segments startMs endMs thresh = some c) :
    ∃ earlier pc later,
      segments.zip (segments.drop 1) = earlier ++ pc :: later ∧
      segmentQualifies (startMs / 1000) (endMs / 1000) thresh pc.2 = true ∧
      c = ⟨pc.2.start, segmentScore pc.1 pc.2⟩ ∧
      (∀ qc ∈ segments.zip (segments.drop 1),
        segmentQualifies (startMs / 1000) (endMs / 1000) thresh qc.2 = true →
          segmentScore qc.1 qc.2 ≤ c.score) ∧
      (∀ qc ∈ earlier,
        segmentQualifies (startMs / 1000) (endMs / 1000) thresh qc.2 = true →
          segmentScore qc.1 qc.2 < c.score) := by
  unfold findDropInSegments at h
  obtain ⟨earlier, x, later, hsplit, hqx, hcx, hmax, hfirst⟩ := scanBest_spec _ _ _ _ h
  exact ⟨earlier, x, later, hsplit, hqx, hcx,
    fun qc hqc hq => hmax qc hqc hq, fun qc hqc hq => hfirst qc hqc hq⟩

/-- C8 witness: the amended argmax characterization at a two-segment list;
the second segment (loudness jump 70 dB over the first) is selected with
score `3·70 + 70/15 = 644/3`. -/
theorem findDropInSegments_argmax_witness :
    ∃ earlier pc later,
      ([⟨0, -60, []⟩, ⟨30, 10, []⟩] : List AnalysisSegment).zip
        (([⟨0, -60, []⟩, ⟨30, 10, []⟩] : List AnalysisSegment).drop 1) =
          earlier ++ pc :: later ∧
      segmentQualifies (15000 / 1000) (70000 / 1000) 3 pc.2 = true ∧
      (⟨30, 644 / 3⟩ : DropCandidate) = ⟨pc.2.start, segmentScore pc.1 pc.2⟩ ∧
      (∀ qc ∈ ([⟨0, -60, []⟩, ⟨30, 10, []⟩] : List AnalysisSegment).zip
          (([⟨0, -60, []⟩, ⟨30, 10, []⟩] : List AnalysisSegment).drop 1),
        segmentQualifies (15000 / 1000) (70000 / 1000) 3 qc.2 = true →
          segmentScore qc.1 qc.2 ≤ (⟨30, 644 / 3⟩ : DropCandidate).score) ∧
      (∀ qc ∈ earlier,
        segmentQualifies (15000 / 1000) (70000 / 1000) 3 qc.2 = true →
          segmentScore qc.1 qc.2 < (⟨30, 644 / 3⟩ : DropCandidate).score) :=
  findDropInSegments_argmax [⟨0, -60, []⟩, ⟨30, 10, []⟩] 15000 70000 3 ⟨30, 644 / 3⟩
    (by norm_num [findDropInSegments, scanBest, scanStep, segmentQualifies, segmentScore])

/-! ## Claim C9 -/

/-- C9: the beat snapper returns the raw timestamp unchanged when no bar
reaches the 0.5 confidence floor; otherwise it returns the start of a
confident bar at minimal absolute distance from the raw timestamp.  In
particular, a raw candidate at 61.3 s with bars at 60.0 s (confidence 0.9)
and 64.0 s (confidence 0.4) snaps to 60.0 s. -/
theorem snapToDownbeat_spec (t : ℚ) (bars : List AnalysisBar) :
    ((∀ b ∈ bars, b.confidence < 0.5) → snapToDownbeat t bars = t) ∧
    (∀ b0 ∈ bars, ¬b0.confidence < 0.5 →
      ∃ b ∈ bars, ¬b.confidence < 0.5 ∧ snapToDownbeat t bars = b.start ∧
        ∀ b2 ∈ bars, ¬b2.confidence < 0.5 → |b.start - t| ≤ |b2.start - t|) ∧
    snapToDownbeat 61.3 [⟨60, 0.9⟩, ⟨64, 0.4⟩] = 60 := by
  refine ⟨?_, ?_, by norm_num [snapToDownbeat, snapStep]⟩
  · intro hall
    rcases snapToDownbeat_cases t bars with ⟨h, _⟩ | ⟨b, hm, hcf, _, _⟩
    · exact h
    · exact absurd (hall b hm) hcf
  · intro b0 hb0 hcf0
    rcases snapToDownbeat_cases t bars with ⟨_, hall⟩ | ⟨b, hm, hcf, h, hmin⟩
    · exact absurd (hall b0 hb0) hcf0
    · exact ⟨b, hm, hcf, h, hmin⟩

/-- C9 witness: at the claim's example input, a confident bar exists, so the
snapper returns the start of a minimal-distance confident bar. -/
theorem snapToDownbeat_spec_witness :
    ∃ b ∈ [(⟨60, 0.9⟩ : AnalysisBar), ⟨64, 0.4⟩], ¬b.confidence < 0.5 ∧
      snapToDownbeat 61.3 [⟨60, 0.9⟩, ⟨64, 0.4⟩] = b.start ∧
      ∀ b2 ∈ [(⟨60, 0.9⟩ : AnalysisBar), ⟨64, 0.4⟩], ¬b2.confidence < 0.5 →
        |b.start - (61.3 : ℚ)| ≤ |b2.start - 61.3| :=
  (snapToDownbeat_spec 61.3 [⟨60, 0.9⟩, ⟨64, 0.4⟩]).2.1 ⟨60, 0.9⟩ (by simp) (by norm_num)

/-! ## Claim C10 -/

/-- C10: beat snapping is not confined to the search window.  On a
200-second track the window starts at 15 % = 30 s; the section scanner hits
at 60 s (method `sections`), but the only confident bar sits at 10 s, so
the published drop start is 10 000 ms — strictly before 15 % of the track
duration. -/
theorem snap_outside_window :
    (detectDrop track200 3 20000 emptyCache 0 (Except.ok analysisEarlyBar)).1.method =
      "sections" ∧
    (detectDrop track200 3 20000 emptyCache 0 (Except.ok analysisEarlyBar)).1.dropStart =
      10000 ∧
    (((detectDrop track200 3 20000 emptyCache 0
      (Except.ok analysisEarlyBar)).1.dropStart : ℤ) : ℚ) < track200.duration_ms * 0.15 := by
  have h1 : (detectDrop track200 3 20000 emptyCache 0
      (Except.ok analysisEarlyBar)).1.method = "sections" := by
    norm_num [detectDrop, tryDetect, getCachedAnalysis, emptyCache, track200, analysisEarlyBar,
      analyzeForDrop, findDropInSections, findDropInSegments, scanBest, scanStep,
      sectionQualifies, sectionScore, median, buildResult, snapToDownbeat, snapStep,
      loudestSegmentInRange]
  have h2 : (detectDrop track200 3 20000 emptyCache 0
      (Except.ok analysisEarlyBar)).1.dropStart = 10000 := by
    norm_num [detectDrop, tryDetect, getCachedAnalysis, emptyCache, track200, analysisEarlyBar,
      analyzeForDrop, findDropInSections, findDropInSegments, scanBest, scanStep,
      sectionQualifies, sectionScore, median, buildResult, snapToDownbeat, snapStep,
      loudestSegmentInRange]
  refine ⟨h1, h2, ?_⟩
  rw [h2]
  norm_num [track200]

end DropSkimmer
